import Mathlib

/-!
Shallow embedding of `src/app.py` (Slalom Capabilities Management System API).

The program keeps an in-memory catalog mapping capability names to records
whose only mutable field is the `consultants` list.  Requests authenticate
via two headers, the password is hashed and matched against a credential
store of practice-lead accounts loaded at startup, and two handlers
(`register_for_capability`, `unregister_from_capability`) mutate the list.

Modelling choices:
* The Python dict `capabilities` becomes an ordered association list
  `Catalog`; dict indexing becomes first-match lookup and in-place mutation
  of an entry becomes first-match replacement, which agrees with dict
  semantics (dict keys are unique).
* `HTTPException` becomes the `HttpError` record (status code and detail);
  a handler returns `Except HttpError String × Catalog`, carrying the
  catalog so that "no mutation on the error path" is explicit.
* `hashlib.sha256` is a library routine outside the repository, so the
  authentication functions are parametric in the hash function
  `hash_password : String → String`.
* `practice_leads.json` is an external resource; the credential store is a
  parameter `practice_leads : List Account`.
* FastAPI header extraction `request.headers.get` yields `Option String`;
  Python falsiness of a header value (`not username`) holds for both a
  missing header and an empty string.
-/

/-- An entry of the credential store (`practice_leads.json`):
`{username, password_hash, role}`. -/
structure Account where
  username : String
  password_hash : String
  role : String
deriving DecidableEq, Repr

/-- A capability record of the in-memory database in `app.py`. -/
structure Capability where
  description : String
  practice_area : String
  skill_levels : List String
  certifications : List String
  industry_verticals : List String
  capacity : Nat
  consultants : List String
deriving DecidableEq, Repr

/-- The `capabilities` dict: an ordered association list from capability
name to record. -/
abbrev Catalog := List (String × Capability)

/-- `raise HTTPException(status_code=..., detail=...)`. -/
structure HttpError where
  status_code : Nat
  detail : String
deriving DecidableEq, Repr

/-- Dict indexing `capabilities[capability_name]` (also the membership test
`capability_name in capabilities`): first entry with the given key. -/
def Catalog.find? : Catalog → String → Option Capability
  | [], _ => none
  | (k, v) :: rest, name => if k = name then some v else Catalog.find? rest name

/-- In-place mutation of the record stored under a key: replace the value of
the first entry with that key (dict keys are unique, so this is dict
assignment). -/
def Catalog.set : Catalog → String → Capability → Catalog
  | [], _, _ => []
  | (k, v) :: rest, name, newCap =>
    if k = name then (k, newCap) :: rest
    else (k, v) :: Catalog.set rest name newCap

/-- `authenticate_user` from `app.py`: linear scan of the credential store
for an entry matching both the username and the hashed password
(`hash_password` abstracts `hashlib.sha256(...).hexdigest()`). -/
def authenticate_user (hash_password : String → String)
    (practice_leads : List Account) (username password : String) :
    Option Account :=
  match practice_leads with
  | [] => none
  | lead :: rest =>
    if lead.username = username ∧ lead.password_hash = hash_password password
    then some lead
    else authenticate_user hash_password rest username password

/-- `get_current_user` from `app.py`: reads the `X-Username` / `X-Password`
headers, fails 401 when either is missing or empty (Python falsiness), then
fails 403 when `authenticate_user` finds no match. -/
def get_current_user (hash_password : String → String)
    (practice_leads : List Account) (username password : Option String) :
    Except HttpError Account :=
  if username.getD "" = "" ∨ password.getD "" = "" then
    .error ⟨401, "Missing credentials"⟩
  else
    match authenticate_user hash_password practice_leads
        (username.getD "") (password.getD "") with
    | some user => .ok user
    | none => .error ⟨403, "Invalid credentials"⟩

/-- The authorization condition of both handlers (line 158 and line 181 of
`app.py`): practice leads act on anyone; consultants only on themselves. -/
def canAct (user : Account) (email : String) : Prop :=
  user.role = "practice_lead" ∨
    (user.role = "consultant" ∧ user.username = email)

instance (user : Account) (email : String) : Decidable (canAct user email) := by
  unfold canAct
  infer_instance

/-- `register_for_capability` from `app.py`, after dependency resolution has
produced `user`: 404 on unknown capability, 403 when not authorized, 400
when already registered, else append the email and return the success
message.  The returned catalog is the post-state. -/
def register_for_capability (caps : Catalog) (capability_name email : String)
    (user : Account) : Except HttpError String × Catalog :=
  match Catalog.find? caps capability_name with
  | none => (.error ⟨404, "Capability not found"⟩, caps)
  | some capability =>
    if canAct user email then
      if email ∈ capability.consultants then
        (.error ⟨400, "Consultant is already registered for this capability"⟩,
         caps)
      else
        (.ok s!"Registered {email} for {capability_name}",
         Catalog.set caps capability_name
           { capability with consultants := capability.consultants ++ [email] })
    else
      (.error ⟨403, "Insufficient permissions"⟩, caps)

/-- `unregister_from_capability` from `app.py`, after dependency resolution:
404 on unknown capability, 403 when not authorized, 400 when absent, else
remove the first occurrence (`list.remove`) and return the success
message. -/
def unregister_from_capability (caps : Catalog) (capability_name email : String)
    (user : Account) : Except HttpError String × Catalog :=
  match Catalog.find? caps capability_name with
  | none => (.error ⟨404, "Capability not found"⟩, caps)
  | some capability =>
    if canAct user email then
      if email ∉ capability.consultants then
        (.error ⟨400, "Consultant is not registered for this capability"⟩,
         caps)
      else
        (.ok s!"Unregistered {email} from {capability_name}",
         Catalog.set caps capability_name
           { capability with consultants := capability.consultants.erase email })
    else
      (.error ⟨403, "Insufficient permissions"⟩, caps)

/-- The in-memory capabilities database seeded at startup (lines 52-134 of
`app.py`). -/
def capabilities : Catalog :=
  [("Cloud Architecture",
    { description := "Design and implement scalable cloud solutions using AWS, Azure, and GCP"
      practice_area := "Technology"
      skill_levels := ["Emerging", "Proficient", "Advanced", "Expert"]
      certifications := ["AWS Solutions Architect", "Azure Architect Expert"]
      industry_verticals := ["Healthcare", "Financial Services", "Retail"]
      capacity := 40
      consultants := ["alice.smith@slalom.com", "bob.johnson@slalom.com"] }),
   ("Data Analytics",
    { description := "Advanced data analysis, visualization, and machine learning solutions"
      practice_area := "Technology"
      skill_levels := ["Emerging", "Proficient", "Advanced", "Expert"]
      certifications := ["Tableau Desktop Specialist", "Power BI Expert", "Google Analytics"]
      industry_verticals := ["Retail", "Healthcare", "Manufacturing"]
      capacity := 35
      consultants := ["emma.davis@slalom.com", "sophia.wilson@slalom.com"] }),
   ("DevOps Engineering",
    { description := "CI/CD pipeline design, infrastructure automation, and containerization"
      practice_area := "Technology"
      skill_levels := ["Emerging", "Proficient", "Advanced", "Expert"]
      certifications := ["Docker Certified Associate", "Kubernetes Admin", "Jenkins Certified"]
      industry_verticals := ["Technology", "Financial Services"]
      capacity := 30
      consultants := ["john.brown@slalom.com", "olivia.taylor@slalom.com"] }),
   ("Digital Strategy",
    { description := "Digital transformation planning and strategic technology roadmaps"
      practice_area := "Strategy"
      skill_levels := ["Emerging", "Proficient", "Advanced", "Expert"]
      certifications := ["Digital Transformation Certificate", "Agile Certified Practitioner"]
      industry_verticals := ["Healthcare", "Financial Services", "Government"]
      capacity := 25
      consultants := ["liam.anderson@slalom.com", "noah.martinez@slalom.com"] }),
   ("Change Management",
    { description := "Organizational change leadership and adoption strategies"
      practice_area := "Operations"
      skill_levels := ["Emerging", "Proficient", "Advanced", "Expert"]
      certifications := ["Prosci Certified", "Lean Six Sigma Black Belt"]
      industry_verticals := ["Healthcare", "Manufacturing", "Government"]
      capacity := 20
      consultants := ["ava.garcia@slalom.com", "mia.rodriguez@slalom.com"] }),
   ("UX/UI Design",
    { description := "User experience design and digital product innovation"
      practice_area := "Technology"
      skill_levels := ["Emerging", "Proficient", "Advanced", "Expert"]
      certifications := ["Adobe Certified Expert", "Google UX Design Certificate"]
      industry_verticals := ["Retail", "Healthcare", "Technology"]
      capacity := 30
      consultants := ["amelia.lee@slalom.com", "harper.white@slalom.com"] }),
   ("Cybersecurity",
    { description := "Information security strategy, risk assessment, and compliance"
      practice_area := "Technology"
      skill_levels := ["Emerging", "Proficient", "Advanced", "Expert"]
      certifications := ["CISSP", "CISM", "CompTIA Security+"]
      industry_verticals := ["Financial Services", "Healthcare", "Government"]
      capacity := 25
      consultants := ["ella.clark@slalom.com", "scarlett.lewis@slalom.com"] }),
   ("Business Intelligence",
    { description := "Enterprise reporting, data warehousing, and business analytics"
      practice_area := "Technology"
      skill_levels := ["Emerging", "Proficient", "Advanced", "Expert"]
      certifications := ["Microsoft BI Certification", "Qlik Sense Certified"]
      industry_verticals := ["Retail", "Manufacturing", "Financial Services"]
      capacity := 35
      consultants := ["james.walker@slalom.com", "benjamin.hall@slalom.com"] }),
   ("Agile Coaching",
    { description := "Agile transformation and team coaching for scaled delivery"
      practice_area := "Operations"
      skill_levels := ["Emerging", "Proficient", "Advanced", "Expert"]
      certifications := ["Certified Scrum Master", "SAFe Agilist", "ICAgile Certified"]
      industry_verticals := ["Technology", "Financial Services", "Healthcare"]
      capacity := 20
      consultants := ["charlotte.young@slalom.com", "henry.king@slalom.com"] })]

/-- The full POST endpoint: FastAPI resolves `Depends(get_current_user)`
before the handler body runs, so an authentication error is returned with
the catalog untouched. -/
def register_endpoint (hash_password : String → String)
    (practice_leads : List Account) (caps : Catalog)
    (capability_name email : String) (username password : Option String) :
    Except HttpError String × Catalog :=
  match get_current_user hash_password practice_leads username password with
  | .error e => (.error e, caps)
  | .ok user => register_for_capability caps capability_name email user

/-- The full DELETE endpoint, analogous to `register_endpoint`. -/
def unregister_endpoint (hash_password : String → String)
    (practice_leads : List Account) (caps : Catalog)
    (capability_name email : String) (username password : Option String) :
    Except HttpError String × Catalog :=
  match get_current_user hash_password practice_leads username password with
  | .error e => (.error e, caps)
  | .ok user => unregister_from_capability caps capability_name email user

/-! ### Lemmas about catalog lookup and update -/

theorem Catalog.find?_mem {caps : Catalog} {name : String} {v : Capability}
    (h : Catalog.find? caps name = some v) : (name, v) ∈ caps := by
  induction caps with
  | nil => simp [Catalog.find?] at h
  | cons p rest ih =>
    obtain ⟨k, val⟩ := p
    by_cases hk : k = name
    · subst hk
      simp [Catalog.find?] at h
      subst h
      exact List.mem_cons_self _ _
    · simp [Catalog.find?, hk] at h
      exact List.mem_cons_of_mem _ (ih h)

theorem Catalog.find?_set_self {caps : Catalog} {name : String} {v : Capability}
    (w : Capability) (h : Catalog.find? caps name = some v) :
    Catalog.find? (Catalog.set caps name w) name = some w := by
  induction caps with
  | nil => simp [Catalog.find?] at h
  | cons p rest ih =>
    obtain ⟨k, val⟩ := p
    by_cases hk : k = name
    · simp [Catalog.set, Catalog.find?, hk]
    · simp [Catalog.set, Catalog.find?, hk] at h ⊢
      exact ih h

theorem Catalog.set_set (caps : Catalog) (name : String) (w w2 : Capability) :
    Catalog.set (Catalog.set caps name w) name w2 = Catalog.set caps name w2 := by
  induction caps with
  | nil => rfl
  | cons p rest ih =>
    obtain ⟨k, val⟩ := p
    by_cases hk : k = name
    · simp [Catalog.set, hk]
    · simp [Catalog.set, hk, ih]

theorem Catalog.set_find?_self {caps : Catalog} {name : String} {v : Capability}
    (h : Catalog.find? caps name = some v) : Catalog.set caps name v = caps := by
  induction caps with
  | nil => rfl
  | cons p rest ih =>
    obtain ⟨k, val⟩ := p
    by_cases hk : k = name
    · simp [Catalog.find?, hk] at h
      simp [Catalog.set, hk, h]
    · simp [Catalog.find?, hk] at h
      simp [Catalog.set, hk, ih h]

theorem Catalog.mem_set {caps : Catalog} {name : String} {w : Capability}
    {p : String × Capability} (h : p ∈ Catalog.set caps name w) :
    p.2 = w ∨ p ∈ caps := by
  induction caps with
  | nil => simp [Catalog.set] at h
  | cons q rest ih =>
    obtain ⟨k, val⟩ := q
    by_cases hk : k = name
    · simp [Catalog.set, hk] at h
      rcases h with h | h
      · subst h
        exact Or.inl rfl
      · exact Or.inr (List.mem_cons_of_mem _ h)
    · simp [Catalog.set, hk] at h
      rcases h with h | h
      · subst h
        exact Or.inr (List.mem_cons_self _ _)
      · rcases ih h with h2 | h2
        · exact Or.inl h2
        · exact Or.inr (List.mem_cons_of_mem _ h2)

/-- Specification predicate for the frame property of an operation on the
capability named `name`: the entry keeps its key, every capability field
except possibly `consultants` is unchanged, and entries under any other key
are entirely unchanged. -/
def FrameOk (name : String) (p q : String × Capability) : Prop :=
  q.1 = p.1 ∧
  q.2.description = p.2.description ∧
  q.2.practice_area = p.2.practice_area ∧
  q.2.skill_levels = p.2.skill_levels ∧
  q.2.certifications = p.2.certifications ∧
  q.2.industry_verticals = p.2.industry_verticals ∧
  q.2.capacity = p.2.capacity ∧
  (p.1 ≠ name → q = p)

theorem FrameOk.refl (name : String) (p : String × Capability) : FrameOk name p p :=
  ⟨rfl, rfl, rfl, rfl, rfl, rfl, rfl, fun _ => rfl⟩

theorem forall₂_frameOk_refl (name : String) (caps : Catalog) :
    List.Forall₂ (FrameOk name) caps caps :=
  List.forall₂_same.mpr fun p _ => FrameOk.refl name p

theorem Catalog.set_frame {caps : Catalog} {name : String} {cap : Capability}
    (l : List String) (h : Catalog.find? caps name = some cap) :
    List.Forall₂ (FrameOk name) caps
      (Catalog.set caps name { cap with consultants := l }) := by
  induction caps with
  | nil => simp [Catalog.find?] at h
  | cons p rest ih =>
    obtain ⟨k, val⟩ := p
    by_cases hk : k = name
    · subst hk
      simp [Catalog.find?] at h
      subst h
      simp only [Catalog.set, if_pos rfl]
      exact List.Forall₂.cons
        ⟨rfl, rfl, rfl, rfl, rfl, rfl, rfl, fun hne => absurd rfl hne⟩
        (forall₂_frameOk_refl k rest)
    · simp [Catalog.find?, hk] at h
      simp only [Catalog.set, if_neg hk]
      exact List.Forall₂.cons (FrameOk.refl name (k, val)) (ih h)

/-! ### Branch characterizations of the two handlers -/

theorem register_notfound {caps : Catalog} {C E : String} {user : Account}
    (h : Catalog.find? caps C = none) :
    register_for_capability caps C E user =
      (.error ⟨404, "Capability not found"⟩, caps) := by
  simp [register_for_capability, h]

theorem register_forbidden {caps : Catalog} {C E : String} {user : Account}
    {cap : Capability} (h : Catalog.find? caps C = some cap)
    (hact : ¬ canAct user E) :
    register_for_capability caps C E user =
      (.error ⟨403, "Insufficient permissions"⟩, caps) := by
  simp [register_for_capability, h, hact]

theorem register_dup {caps : Catalog} {C E : String} {user : Account}
    {cap : Capability} (h : Catalog.find? caps C = some cap)
    (hact : canAct user E) (hin : E ∈ cap.consultants) :
    register_for_capability caps C E user =
      (.error ⟨400, "Consultant is already registered for this capability"⟩,
       caps) := by
  simp [register_for_capability, h, hact, hin]

theorem register_success {caps : Catalog} {C E : String} {user : Account}
    {cap : Capability} (h : Catalog.find? caps C = some cap)
    (hact : canAct user E) (hnotin : E ∉ cap.consultants) :
    register_for_capability caps C E user =
      (.ok s!"Registered {E} for {C}",
       Catalog.set caps C { cap with consultants := cap.consultants ++ [E] }) := by
  simp [register_for_capability, h, hact, hnotin]

theorem unregister_notfound {caps : Catalog} {C E : String} {user : Account}
    (h : Catalog.find? caps C = none) :
    unregister_from_capability caps C E user =
      (.error ⟨404, "Capability not found"⟩, caps) := by
  simp [unregister_from_capability, h]

theorem unregister_forbidden {caps : Catalog} {C E : String} {user : Account}
    {cap : Capability} (h : Catalog.find? caps C = some cap)
    (hact : ¬ canAct user E) :
    unregister_from_capability caps C E user =
      (.error ⟨403, "Insufficient permissions"⟩, caps) := by
  simp [unregister_from_capability, h, hact]

theorem unregister_absent {caps : Catalog} {C E : String} {user : Account}
    {cap : Capability} (h : Catalog.find? caps C = some cap)
    (hact : canAct user E) (hnotin : E ∉ cap.consultants) :
    unregister_from_capability caps C E user =
      (.error ⟨400, "Consultant is not registered for this capability"⟩,
       caps) := by
  simp [unregister_from_capability, h, hact, hnotin]

theorem unregister_success {caps : Catalog} {C E : String} {user : Account}
    {cap : Capability} (h : Catalog.find? caps C = some cap)
    (hact : canAct user E) (hin : E ∈ cap.consultants) :
    unregister_from_capability caps C E user =
      (.ok s!"Unregistered {E} from {C}",
       Catalog.set caps C { cap with consultants := cap.consultants.erase E }) := by
  simp [unregister_from_capability, h, hact, hin]

/-! ### Concrete sample data for witnesses -/

/-- A concrete practice-lead account, as loaded from `practice_leads.json`. -/
def samplePracticeLead : Account :=
  { username := "sarah.lead@slalom.com"
    password_hash := "2cf24dba5fb0a30e26e83b2ac5b9e29e1b161e5c1fa7425e73043362938b9824"
    role := "practice_lead" }

/-- A concrete capability record used to instantiate the theorems. -/
def sampleCap : Capability :=
  { description := "Design and implement scalable cloud solutions using AWS, Azure, and GCP"
    practice_area := "Technology"
    skill_levels := ["Emerging", "Proficient", "Advanced", "Expert"]
    certifications := ["AWS Solutions Architect", "Azure Architect Expert"]
    industry_verticals := ["Healthcare", "Financial Services", "Retail"]
    capacity := 40
    consultants := ["alice.smith@slalom.com", "bob.johnson@slalom.com"] }

/-- A one-entry catalog used to instantiate the theorems. -/
def sampleCatalog : Catalog := [("Cloud Architecture", sampleCap)]

/-! ### Claim theorems -/

/-- C1: for every capability `C` in the catalog and email `E` not in
`C.consultants`, `register(C, E)` by a practice-lead account succeeds,
returns the success message naming `E` and `C`, appends `E` at the end of
the consultants list so that `E` occurs exactly once, and a second
identical call fails with HTTP 400 (AlreadyRegistered) and leaves the
catalog unchanged. -/
theorem register_once_then_conflict
    (caps : Catalog) (C E : String) (cap : Capability) (user : Account)
    (hfind : Catalog.find? caps C = some cap)
    (hnotin : E ∉ cap.consultants)
    (hrole : user.role = "practice_lead") :
    (register_for_capability caps C E user).1 = .ok s!"Registered {E} for {C}" ∧
    Catalog.find? (register_for_capability caps C E user).2 C =
      some { cap with consultants := cap.consultants ++ [E] } ∧
    (cap.consultants ++ [E]).count E = 1 ∧
    register_for_capability (register_for_capability caps C E user).2 C E user =
      (.error ⟨400, "Consultant is already registered for this capability"⟩,
       (register_for_capability caps C E user).2) := by
  have hact : canAct user E := by
    unfold canAct
    exact Or.inl hrole
  have h1 := register_success hfind hact hnotin
  have hfind2 : Catalog.find? (register_for_capability caps C E user).2 C =
      some { cap with consultants := cap.consultants ++ [E] } := by
    rw [h1]
    exact Catalog.find?_set_self _ hfind
  refine ⟨by rw [h1], hfind2, ?_, ?_⟩
  · simp [List.count_append, List.count_eq_zero_of_not_mem hnotin]
  · exact register_dup hfind2 hact (by simp)

/-- C1 witness: the theorem instantiated on a concrete catalog, email and
practice-lead account. -/
theorem register_once_then_conflict_witness :
    Catalog.find? sampleCatalog "Cloud Architecture" = some sampleCap ∧
    "carol@slalom.com" ∉ sampleCap.consultants ∧
    samplePracticeLead.role = "practice_lead" ∧
    (register_for_capability sampleCatalog "Cloud Architecture"
        "carol@slalom.com" samplePracticeLead).1 =
      .ok "Registered carol@slalom.com for Cloud Architecture" :=
  ⟨rfl, by decide, rfl,
   (register_once_then_conflict sampleCatalog "Cloud Architecture"
      "carol@slalom.com" sampleCap samplePracticeLead rfl (by decide) rfl).1⟩

/-- C2: for every capability `C` in the catalog and email `E` in
`C.consultants` (which is duplicate-free by the invariant of C4),
`unregister(C, E)` by a practice-lead account succeeds, removes exactly one
occurrence of `E`, and a second identical call fails with HTTP 400
(NotRegistered) and leaves the catalog unchanged. -/
theorem unregister_once_then_conflict
    (caps : Catalog) (C E : String) (cap : Capability) (user : Account)
    (hfind : Catalog.find? caps C = some cap)
    (hin : E ∈ cap.consultants)
    (hnodup : cap.consultants.Nodup)
    (hrole : user.role = "practice_lead") :
    (unregister_from_capability caps C E user).1 =
      .ok s!"Unregistered {E} from {C}" ∧
    Catalog.find? (unregister_from_capability caps C E user).2 C =
      some { cap with consultants := cap.consultants.erase E } ∧
    (cap.consultants.erase E).count E + 1 = cap.consultants.count E ∧
    unregister_from_capability
        (unregister_from_capability caps C E user).2 C E user =
      (.error ⟨400, "Consultant is not registered for this capability"⟩,
       (unregister_from_capability caps C E user).2) := by
  have hact : canAct user E := by
    unfold canAct
    exact Or.inl hrole
  have h1 := unregister_success hfind hact hin
  have hfind2 : Catalog.find? (unregister_from_capability caps C E user).2 C =
      some { cap with consultants := cap.consultants.erase E } := by
    rw [h1]
    exact Catalog.find?_set_self _ hfind
  refine ⟨by rw [h1], hfind2, ?_, ?_⟩
  · have hc := List.count_erase_self E cap.consultants
    have hpos : 1 ≤ cap.consultants.count E := List.count_pos_iff.mpr hin
    omega
  · exact unregister_absent hfind2 hact (by simp [hnodup.not_mem_erase])

/-- C2 witness: the theorem instantiated on a concrete catalog, a seeded
consultant email and a practice-lead account. -/
theorem unregister_once_then_conflict_witness :
    Catalog.find? sampleCatalog "Cloud Architecture" = some sampleCap ∧
    "alice.smith@slalom.com" ∈ sampleCap.consultants ∧
    sampleCap.consultants.Nodup ∧
    samplePracticeLead.role = "practice_lead" ∧
    (unregister_from_capability sampleCatalog "Cloud Architecture"
        "alice.smith@slalom.com" samplePracticeLead).1 =
      .ok "Unregistered alice.smith@slalom.com from Cloud Architecture" :=
  ⟨rfl, by decide, by decide, rfl,
   (unregister_once_then_conflict sampleCatalog "Cloud Architecture"
      "alice.smith@slalom.com" sampleCap samplePracticeLead rfl (by decide)
      (by decide) rfl).1⟩

/-- C3: for every authenticated acting account, capability name present in
the catalog, and email, register and unregister proceed past the permission
check if and only if the account's role is `practice_lead`, or it is
`consultant` and its username equals the email; otherwise both fail with
HTTP 403 and leave the catalog unchanged. -/
theorem authorization_guard
    (caps : Catalog) (C E : String) (cap : Capability) (user : Account)
    (hfind : Catalog.find? caps C = some cap) :
    ((register_for_capability caps C E user).1 ≠
        .error ⟨403, "Insufficient permissions"⟩ ↔
      (user.role = "practice_lead" ∨
        (user.role = "consultant" ∧ user.username = E))) ∧
    ((unregister_from_capability caps C E user).1 ≠
        .error ⟨403, "Insufficient permissions"⟩ ↔
      (user.role = "practice_lead" ∨
        (user.role = "consultant" ∧ user.username = E))) ∧
    (¬ (user.role = "practice_lead" ∨
        (user.role = "consultant" ∧ user.username = E)) →
      register_for_capability caps C E user =
        (.error ⟨403, "Insufficient permissions"⟩, caps) ∧
      unregister_from_capability caps C E user =
        (.error ⟨403, "Insufficient permissions"⟩, caps)) := by
  have hdef : canAct user E ↔
      (user.role = "practice_lead" ∨
        (user.role = "consultant" ∧ user.username = E)) := by
    unfold canAct
    exact Iff.rfl
  by_cases hact : canAct user E
  · have hreg : (register_for_capability caps C E user).1 ≠
        .error ⟨403, "Insufficient permissions"⟩ := by
      by_cases hin : E ∈ cap.consultants
      · rw [register_dup hfind hact hin]
        simp
      · rw [register_success hfind hact hin]
        simp
    have hunreg : (unregister_from_capability caps C E user).1 ≠
        .error ⟨403, "Insufficient permissions"⟩ := by
      by_cases hin : E ∈ cap.consultants
      · rw [unregister_success hfind hact hin]
        simp
      · rw [unregister_absent hfind hact hin]
        simp
    exact ⟨iff_of_true hreg (hdef.mp hact),
           iff_of_true hunreg (hdef.mp hact),
           fun h => absurd (hdef.mp hact) h⟩
  · have hreg := register_forbidden hfind hact
    have hunreg := unregister_forbidden hfind hact
    refine ⟨?_, ?_, fun _ => ⟨hreg, hunreg⟩⟩
    · rw [hreg]
      simpa using fun h => hact (hdef.mpr h)
    · rw [hunreg]
      simpa using fun h => hact (hdef.mpr h)

/-- C3 witness: a consultant account acting on a different email is denied
with 403; the same account self-registering passes the guard. -/
theorem authorization_guard_witness :
    Catalog.find? sampleCatalog "Cloud Architecture" = some sampleCap ∧
    register_for_capability sampleCatalog "Cloud Architecture"
        "carol@slalom.com"
        { username := "dave@slalom.com", password_hash := "h",
          role := "consultant" } =
      (.error ⟨403, "Insufficient permissions"⟩, sampleCatalog) :=
  ⟨rfl,
   ((authorization_guard sampleCatalog "Cloud Architecture" "carol@slalom.com"
      sampleCap
      { username := "dave@slalom.com", password_hash := "h",
        role := "consultant" } rfl).2.2 (by decide)).1⟩

/-- C5: for every acting account and email, register and unregister on a
capability name that is not a key of the catalog fail with HTTP 404
(NotFound): the existence check precedes the permission check, so this
holds regardless of the authorization outcome. -/
theorem unknown_capability_notfound
    (caps : Catalog) (C E : String) (user : Account)
    (hfind : Catalog.find? caps C = none) :
    register_for_capability caps C E user =
      (.error ⟨404, "Capability not found"⟩, caps) ∧
    unregister_from_capability caps C E user =
      (.error ⟨404, "Capability not found"⟩, caps) :=
  ⟨register_notfound hfind, unregister_notfound hfind⟩

/-- C5 witness: an unknown capability name yields 404 even for an account
that would also fail the permission check. -/
theorem unknown_capability_notfound_witness :
    Catalog.find? sampleCatalog "Quantum Computing" = none ∧
    register_for_capability sampleCatalog "Quantum Computing"
        "carol@slalom.com"
        { username := "dave@slalom.com", password_hash := "h",
          role := "consultant" } =
      (.error ⟨404, "Capability not found"⟩, sampleCatalog) :=
  ⟨by decide,
   (unknown_capability_notfound sampleCatalog "Quantum Computing"
      "carol@slalom.com"
      { username := "dave@slalom.com", password_hash := "h",
        role := "consultant" } (by decide)).1⟩

/-- C6: a register or unregister request with a missing username or
password header fails with HTTP 401; the result is the same for every
catalog (no catalog lookup can influence it) and the catalog is returned
unchanged. -/
theorem missing_credentials_unauthenticated
    (hash_password : String → String) (practice_leads : List Account)
    (caps : Catalog) (C E : String) (username password : Option String)
    (h : username = none ∨ password = none) :
    register_endpoint hash_password practice_leads caps C E username password =
      (.error ⟨401, "Missing credentials"⟩, caps) ∧
    unregister_endpoint hash_password practice_leads caps C E username password =
      (.error ⟨401, "Missing credentials"⟩, caps) := by
  have hcond : username.getD "" = "" ∨ password.getD "" = "" := by
    rcases h with h | h <;> simp [h]
  have hgcu : get_current_user hash_password practice_leads username password =
      .error ⟨401, "Missing credentials"⟩ := by
    simp [get_current_user, hcond]
  exact ⟨by simp [register_endpoint, hgcu], by simp [unregister_endpoint, hgcu]⟩

/-- C6 witness: a request with no username header gets 401 on both
endpoints, with the catalog unchanged. -/
theorem missing_credentials_unauthenticated_witness :
    register_endpoint (fun s => s) [samplePracticeLead] sampleCatalog
        "Cloud Architecture" "carol@slalom.com" none (some "pw") =
      (.error ⟨401, "Missing credentials"⟩, sampleCatalog) :=
  (missing_credentials_unauthenticated (fun s => s) [samplePracticeLead]
    sampleCatalog "Cloud Architecture" "carol@slalom.com" none (some "pw")
    (Or.inl rfl)).1

/-- C7: `authenticate_user` returns the first account of the credential
store whose username equals the given username and whose stored hash equals
the hash of the given password, and returns `none` exactly when no account
matches both fields.  (It is a pure function of its arguments: the
embedding has no state to mutate, and the hash function is the fixed digest
passed in.) -/
theorem authenticate_first_match
    (hash_password : String → String) (practice_leads : List Account)
    (username password : String) :
    authenticate_user hash_password practice_leads username password =
      List.find? (fun lead =>
        lead.username == username &&
          lead.password_hash == hash_password password) practice_leads ∧
    (authenticate_user hash_password practice_leads username password = none ↔
      ∀ lead ∈ practice_leads,
        ¬(lead.username = username ∧
          lead.password_hash = hash_password password)) := by
  have h1 : authenticate_user hash_password practice_leads username password =
      List.find? (fun lead =>
        lead.username == username &&
          lead.password_hash == hash_password password) practice_leads := by
    induction practice_leads with
    | nil => rfl
    | cons lead rest ih =>
      rw [List.find?_cons]
      by_cases hc : lead.username = username ∧
          lead.password_hash = hash_password password
      · have hb : (lead.username == username &&
            lead.password_hash == hash_password password) = true := by
          simp [hc.1, hc.2]
        rw [hb]
        simp [authenticate_user, hc]
      · have hb : (lead.username == username &&
            lead.password_hash == hash_password password) = false := by
          rcases not_and_or.mp hc with h | h <;> simp [h]
        rw [hb]
        simpa [authenticate_user, hc] using ih
  refine ⟨h1, ?_⟩
  rw [h1, List.find?_eq_none]
  constructor
  · intro h lead hm hmatch
    exact absurd (by simp [hmatch.1, hmatch.2]) (h lead hm)
  · intro h lead hm
    simp only [Bool.and_eq_true, beq_iff_eq]
    exact fun hmatch => h lead hm ⟨hmatch.1, hmatch.2⟩

/-- C7 witness: on a concrete one-account store (with the identity as the
digest stand-in) the scan returns the matching account. -/
theorem authenticate_first_match_witness :
    authenticate_user (fun s => s) [samplePracticeLead] "sarah.lead@slalom.com"
        "2cf24dba5fb0a30e26e83b2ac5b9e29e1b161e5c1fa7425e73043362938b9824" =
      some samplePracticeLead :=
  ((authenticate_first_match (fun s => s) [samplePracticeLead]
      "sarah.lead@slalom.com"
      "2cf24dba5fb0a30e26e83b2ac5b9e29e1b161e5c1fa7425e73043362938b9824").1).trans
    (by decide)

/-- Any account returned by `authenticate_user` is an entry of the
credential store it scanned. -/
theorem authenticate_user_mem {hash_password : String → String}
    {practice_leads : List Account} {username password : String} {a : Account}
    (h : authenticate_user hash_password practice_leads username password =
      some a) : a ∈ practice_leads := by
  induction practice_leads with
  | nil => simp [authenticate_user] at h
  | cons lead rest ih =>
    by_cases hc : lead.username = username ∧
        lead.password_hash = hash_password password
    · simp [authenticate_user, hc] at h
      subst h
      exact List.mem_cons_self _ _
    · simp [authenticate_user, hc] at h
      exact List.mem_cons_of_mem _ (ih h)

/-- C8: when every account in the credential store has role
`practice_lead`, every account `authenticate_user` returns has role
`practice_lead`; hence for any email the consultant self-service branch of
the authorization guard is never what admits a request — the guard already
holds through its practice-lead disjunct, and the consultant conjunction is
false. -/
theorem consultant_branch_unreachable
    (hash_password : String → String) (practice_leads : List Account)
    (u p E : String) (user : Account)
    (hleads : ∀ lead ∈ practice_leads, lead.role = "practice_lead")
    (hauth : authenticate_user hash_password practice_leads u p = some user) :
    user.role = "practice_lead" ∧
    ¬(user.role = "consultant" ∧ user.username = E) ∧
    canAct user E := by
  have hrole := hleads user (authenticate_user_mem hauth)
  refine ⟨hrole, ?_, ?_⟩
  · rintro ⟨hc, -⟩
    rw [hrole] at hc
    exact absurd hc (by decide)
  · unfold canAct
    exact Or.inl hrole

/-- C8 witness: the concrete all-practice-lead store yields an account for
which the consultant branch is false and the guard still holds. -/
theorem consultant_branch_unreachable_witness :
    (∀ lead ∈ [samplePracticeLead], lead.role = "practice_lead") ∧
    ¬(samplePracticeLead.role = "consultant" ∧
      samplePracticeLead.username = "carol@slalom.com") ∧
    canAct samplePracticeLead "carol@slalom.com" :=
  ⟨by decide,
   (consultant_branch_unreachable (fun s => s) [samplePracticeLead]
      "sarah.lead@slalom.com"
      "2cf24dba5fb0a30e26e83b2ac5b9e29e1b161e5c1fa7425e73043362938b9824"
      "carol@slalom.com" samplePracticeLead (by decide) (by decide)).2.1,
   (consultant_branch_unreachable (fun s => s) [samplePracticeLead]
      "sarah.lead@slalom.com"
      "2cf24dba5fb0a30e26e83b2ac5b9e29e1b161e5c1fa7425e73043362938b9824"
      "carol@slalom.com" samplePracticeLead (by decide) (by decide)).2.2⟩

/-- C4: every consultants list of the seed catalog is duplicate-free, and
both handlers preserve that invariant for every catalog, capability name,
email and acting account. -/
theorem consultants_nodup_invariant :
    (∀ q ∈ capabilities, q.2.consultants.Nodup) ∧
    (∀ (caps : Catalog) (C E : String) (user : Account),
      (∀ q ∈ caps, q.2.consultants.Nodup) →
      (∀ q ∈ (register_for_capability caps C E user).2,
        q.2.consultants.Nodup) ∧
      (∀ q ∈ (unregister_from_capability caps C E user).2,
        q.2.consultants.Nodup)) := by
  constructor
  · decide
  · intro caps C E user hinv
    constructor
    · rcases hfind : Catalog.find? caps C with _ | cap
      · rw [register_notfound hfind]
        exact hinv
      · by_cases hact : canAct user E
        · by_cases hin : E ∈ cap.consultants
          · rw [register_dup hfind hact hin]
            exact hinv
          · rw [register_success hfind hact hin]
            intro q hq
            rcases Catalog.mem_set hq with h | h
            · rw [h]
              have hcap := hinv _ (Catalog.find?_mem hfind)
              simp only at hcap
              simp [List.nodup_append, hin, hcap]
            · exact hinv q h
        · rw [register_forbidden hfind hact]
          exact hinv
    · rcases hfind : Catalog.find? caps C with _ | cap
      · rw [unregister_notfound hfind]
        exact hinv
      · by_cases hact : canAct user E
        · by_cases hin : E ∈ cap.consultants
          · rw [unregister_success hfind hact hin]
            intro q hq
            rcases Catalog.mem_set hq with h | h
            · rw [h]
              have hcap := hinv _ (Catalog.find?_mem hfind)
              simp only at hcap
              exact hcap.erase E
            · exact hinv q h
          · rw [unregister_absent hfind hact hin]
            exact hinv
        · rw [unregister_forbidden hfind hact]
          exact hinv

/-- C4 witness: the invariant-preservation part applied to a concrete
successful registration. -/
theorem consultants_nodup_invariant_witness :
    (("Cloud Architecture",
      { sampleCap with
        consultants := sampleCap.consultants ++ ["carol@slalom.com"] }) :
        String × Capability).2.consultants.Nodup :=
  ((consultants_nodup_invariant.2 sampleCatalog "Cloud Architecture"
      "carol@slalom.com" samplePracticeLead (by decide)).1) _ (by decide)

/-- The register handler only ever touches the `consultants` list of the
named capability: a frame lemma for every branch. -/
theorem register_frame (caps : Catalog) (C E : String) (user : Account) :
    List.Forall₂ (FrameOk C) caps (register_for_capability caps C E user).2 := by
  rcases hfind : Catalog.find? caps C with _ | cap
  · rw [register_notfound hfind]
    exact forall₂_frameOk_refl C caps
  · by_cases hact : canAct user E
    · by_cases hin : E ∈ cap.consultants
      · rw [register_dup hfind hact hin]
        exact forall₂_frameOk_refl C caps
      · rw [register_success hfind hact hin]
        exact Catalog.set_frame _ hfind
    · rw [register_forbidden hfind hact]
      exact forall₂_frameOk_refl C caps

/-- The unregister handler only ever touches the `consultants` list of the
named capability: a frame lemma for every branch. -/
theorem unregister_frame (caps : Catalog) (C E : String) (user : Account) :
    List.Forall₂ (FrameOk C) caps
      (unregister_from_capability caps C E user).2 := by
  rcases hfind : Catalog.find? caps C with _ | cap
  · rw [unregister_notfound hfind]
    exact forall₂_frameOk_refl C caps
  · by_cases hact : canAct user E
    · by_cases hin : E ∈ cap.consultants
      · rw [unregister_success hfind hact hin]
        exact Catalog.set_frame _ hfind
      · rw [unregister_absent hfind hact hin]
        exact forall₂_frameOk_refl C caps
    · rw [unregister_forbidden hfind hact]
      exact forall₂_frameOk_refl C caps

/-- C9: for every register or unregister request (successful or failed, any
headers, any credential store), the resulting catalog is entry-by-entry
related to the old one by `FrameOk C`: same number of capabilities, every
entry keeps its key, only the `consultants` field of the capability keyed
by the request's name may change, and entries under every other key are
entirely unchanged. -/
theorem endpoints_frame_only_consultants
    (hash_password : String → String) (practice_leads : List Account)
    (caps : Catalog) (C E : String) (username password : Option String) :
    List.Forall₂ (FrameOk C) caps
      (register_endpoint hash_password practice_leads caps C E
        username password).2 ∧
    (register_endpoint hash_password practice_leads caps C E
      username password).2.length = caps.length ∧
    List.Forall₂ (FrameOk C) caps
      (unregister_endpoint hash_password practice_leads caps C E
        username password).2 ∧
    (unregister_endpoint hash_password practice_leads caps C E
      username password).2.length = caps.length := by
  have h1 : List.Forall₂ (FrameOk C) caps
      (register_endpoint hash_password practice_leads caps C E
        username password).2 := by
    rcases hgcu : get_current_user hash_password practice_leads
        username password with e | user
    · simp only [register_endpoint, hgcu]
      exact forall₂_frameOk_refl C caps
    · simp only [register_endpoint, hgcu]
      exact register_frame caps C E user
  have h2 : List.Forall₂ (FrameOk C) caps
      (unregister_endpoint hash_password practice_leads caps C E
        username password).2 := by
    rcases hgcu : get_current_user hash_password practice_leads
        username password with e | user
    · simp only [unregister_endpoint, hgcu]
      exact forall₂_frameOk_refl C caps
    · simp only [unregister_endpoint, hgcu]
      exact unregister_frame caps C E user
  exact ⟨h1, h1.length_eq.symm, h2, h2.length_eq.symm⟩

/-- C9 witness: the frame property on a concrete successful registration
request. -/
theorem endpoints_frame_only_consultants_witness :
    List.Forall₂ (FrameOk "Cloud Architecture") sampleCatalog
      (register_endpoint (fun s => s) [samplePracticeLead] sampleCatalog
        "Cloud Architecture" "carol@slalom.com"
        (some "sarah.lead@slalom.com")
        (some "2cf24dba5fb0a30e26e83b2ac5b9e29e1b161e5c1fa7425e73043362938b9824")).2 :=
  (endpoints_frame_only_consultants (fun s => s) [samplePracticeLead]
    sampleCatalog "Cloud Architecture" "carol@slalom.com"
    (some "sarah.lead@slalom.com")
    (some "2cf24dba5fb0a30e26e83b2ac5b9e29e1b161e5c1fa7425e73043362938b9824")).1

/-- C10: for a capability `C` in the catalog and an email `E` not in its
consultants, a successful `register(C, E)` followed by `unregister(C, E)`,
both by a practice-lead account, succeeds and restores the entire catalog
to exactly its state before the register call. -/
theorem register_unregister_roundtrip
    (caps : Catalog) (C E : String) (cap : Capability) (user : Account)
    (hfind : Catalog.find? caps C = some cap)
    (hnotin : E ∉ cap.consultants)
    (hrole : user.role = "practice_lead") :
    unregister_from_capability (register_for_capability caps C E user).2
        C E user =
      (.ok s!"Unregistered {E} from {C}", caps) := by
  have hact : canAct user E := by
    unfold canAct
    exact Or.inl hrole
  have h1 := register_success hfind hact hnotin
  have hfind2 : Catalog.find? (register_for_capability caps C E user).2 C =
      some { cap with consultants := cap.consultants ++ [E] } := by
    rw [h1]
    exact Catalog.find?_set_self _ hfind
  have h2 := unregister_success hfind2 hact (by simp)
  rw [h2, h1, Catalog.set_set]
  have herase : (cap.consultants ++ [E]).erase E = cap.consultants := by
    rw [List.erase_append_right _ hnotin]
    simp
  have hrec : ({ { cap with consultants := cap.consultants ++ [E] } with
      consultants := ({ cap with
        consultants := cap.consultants ++ [E] } :
          Capability).consultants.erase E } : Capability) = cap := by
    simp [herase]
  rw [hrec, Catalog.set_find?_self hfind]

/-- C10 witness: register then unregister of a fresh email on the concrete
catalog returns it to its exact original state. -/
theorem register_unregister_roundtrip_witness :
    unregister_from_capability
        (register_for_capability sampleCatalog "Cloud Architecture"
          "carol@slalom.com" samplePracticeLead).2
        "Cloud Architecture" "carol@slalom.com" samplePracticeLead =
      (.ok "Unregistered carol@slalom.com from Cloud Architecture",
       sampleCatalog) :=
  register_unregister_roundtrip sampleCatalog "Cloud Architecture"
    "carol@slalom.com" sampleCap samplePracticeLead rfl (by decide) rfl
